import Mathlib

/-!
Verification of the Willmade DataHub phone-extraction and reconciliation core.

This file gives a shallow embedding, in Lean 4, of the two implementations of
the normalizer/extractor and of the identifier-based reconciler found in the
repository:

* `Processor` embeds `processor.py`: the confusable-character table
  `CHAR_MAP`, the normalization `_normalize_digits`, the regular-expression
  search for `0\d{1,2}[-\s\.\)]*\d{3,4}[-\s\.\)]*\d{4}` (modelled as an
  explicit backtracking matcher with the same greedy priority), the
  digit-count formatter, `extract_phone`, `process_best_list` (modelled after
  the pandas parse), and the reconciler `match_lists` (the pandas left merge,
  `combine_first`, `dropna`, and `drop_duplicates` steps made explicit on
  lists of records).
* `StreamlitApp` embeds `streamlit_app.py`: its own `CHAR_MAP` dictionary
  (keys are Python strings, including the multi-character Korean words, and
  the per-character lookup of `_normalize` is kept exactly as written), the
  digit-strip, and `re.findall` of `010[0-9]{8}` in `extract_phone_numbers`.

The Python `\d` / `\s` classes are Unicode-aware; the model restricts them to
their ASCII subsets, which agrees with Python on every input considered here
(the confusable tables only produce ASCII digits, and all separators used are
ASCII).  The Python `list({...})` idiom materializes a set in unspecified order; the
model keeps first-occurrence order and the theorems about it only use
membership and length, which are order-independent.
-/

/-- ASCII decimal digit, the ASCII fragment of the Python `\d` / `[0-9]`. -/
def isDigitCh (c : Char) : Bool := '0' ≤ c && c ≤ '9'

/-- ASCII fragment of the Python `\s` (space, tab, newline, CR, VT, FF). -/
def isSpacePy (c : Char) : Bool :=
  c == ' ' || c == '\t' || c == '\n' || c == '\r' || c == '\x0b' || c == '\x0c'

/-- The separator class `[-\s\.\)]` of `phone_pattern` in `processor.py`. -/
def isSepCh (c : Char) : Bool := c == '-' || isSpacePy c || c == '.' || c == ')'

/-- Take exactly `n` leading digits, returning them and the rest;
fails when fewer than `n` digits are available.  This is `\d{n}`. -/
def takeDigits : Nat → List Char → Option (List Char × List Char)
  | 0, l => some ([], l)
  | _ + 1, [] => none
  | n + 1, c :: l =>
    if isDigitCh c then
      match takeDigits n l with
      | some (d, r) => some (c :: d, r)
      | none => none
    else none

namespace Processor

/-- `CHAR_MAP` of `processor.py`, verbatim: a dictionary from one-character
strings to digit strings. -/
def CHAR_MAP : List (String × String) :=
  [("공", "0"), ("영", "0"),
   ("일", "1"), ("이", "2"), ("삼", "3"), ("사", "4"),
   ("오", "5"), ("육", "6"), ("륙", "6"), ("칠", "7"), ("팔", "8"), ("구", "9"),
   ("o", "0"), ("O", "0"),
   ("l", "1"), ("I", "1"), ("i", "1"),
   ("Z", "2"),
   ("S", "5"), ("s", "5"),
   ("B", "8")]

/-- `CHAR_MAP.get(ch, ch)`: look the single character up in the dictionary. -/
def mapChar (c : Char) : String :=
  match CHAR_MAP.lookup (String.mk [c]) with
  | some d => d
  | none => String.mk [c]

/-- `_normalize_digits`: `"".join(CHAR_MAP.get(ch, ch) for ch in text)`.
(The `None` / non-string coercion of the Python code is outside the string
domain modelled here.) -/
def normalize_digits (t : String) : List Char :=
  (t.data.map mapChar).foldr (fun s acc => s.data ++ acc) []

/-- One backtracking attempt of `phone_pattern` past the leading `0`, with the
first digit group of width `k` and the middle group of width `m`:
`\d{k}[-\s\.\)]*\d{m}[-\s\.\)]*\d{4}`.  The separator star is implemented by
maximal munch, which is equivalent to the greedy star here because the
separator class and `\d` are disjoint. -/
def matchCore (k m : Nat) (l : List Char) : Option (List Char) :=
  match takeDigits k l with
  | none => none
  | some (g1, r1) =>
    match takeDigits m (r1.dropWhile isSepCh) with
    | none => none
    | some (g2, r3) =>
      match takeDigits 4 (r3.dropWhile isSepCh) with
      | none => none
      | some (g3, _) =>
        some (g1 ++ r1.takeWhile isSepCh ++ g2 ++ r3.takeWhile isSepCh ++ g3)

/-- Try `phone_pattern` anchored at the head of `l`.  The greedy quantifiers
`\d{1,2}` and `\d{3,4}` give the backtracking priority (2,4), (2,3), (1,4),
(1,3). -/
def matchAt (l : List Char) : Option (List Char) :=
  match l with
  | [] => none
  | c :: rest =>
    if c = '0' then
      match matchCore 2 4 rest with
      | some m => some ('0' :: m)
      | none =>
        match matchCore 2 3 rest with
        | some m => some ('0' :: m)
        | none =>
          match matchCore 1 4 rest with
          | some m => some ('0' :: m)
          | none =>
            match matchCore 1 3 rest with
            | some m => some ('0' :: m)
            | none => none
    else none

/-- `phone_pattern.search`: the leftmost match of the pattern. -/
def searchPhone : List Char → Option (List Char)
  | [] => none
  | c :: t =>
    match matchAt (c :: t) with
    | some m => some m
    | none => searchPhone t

/-- Lines 42–53 of `processor.py`: reject a digit string shorter than 9,
format 10 digits as `02`-style `AA-BBBB-CCCC` or `AAA-BBB-CCCC`, 11 digits as
`AAA-BBBB-CCCC`, and return anything else verbatim. -/
def formatDigits (ds : List Char) : Option (List Char) :=
  if ds.length < 9 then none
  else if ds.take 2 = ['0', '2'] ∧ ds.length = 10 then
    some (ds.take 2 ++ '-' :: ((ds.drop 2).take 4 ++ '-' :: ds.drop 6))
  else if ds.length = 10 then
    some (ds.take 3 ++ '-' :: ((ds.drop 3).take 3 ++ '-' :: ds.drop 6))
  else if ds.length = 11 then
    some (ds.take 3 ++ '-' :: ((ds.drop 3).take 4 ++ '-' :: ds.drop 7))
  else some ds

/-- `extract_phone` of `processor.py`: normalize, return `None` on
empty/whitespace-only text, search `phone_pattern`, strip non-digits from the
match, and format. -/
def extract_phone (t : String) : Option String :=
  if (normalize_digits t).all isSpacePy then none
  else
    match searchPhone (normalize_digits t) with
    | none => none
    | some m => (formatDigits (m.filter isDigitCh)).map String.mk

end Processor

/-- A row of the `user_id` / `phone` / `memo` dataframes exchanged between
`process_excel`, `process_best_list` and `match_lists`.  `phone` is `none`
when the pandas cell is null (`NaN`/`None`), `some s` when it holds the
string `s`. -/
structure Rec where
  user_id : String
  phone : Option String
  memo : String
deriving DecidableEq

/-- A pandas cell as `process_best_list` sees it: a string, a float `NaN`
(whose `astype(str)` image is `"nan"`), or Python `None` (whose string image
is `"None"`, as produced for missing parts by `str.split(expand=True)`). -/
inductive PyCell where
  | pstr : String → PyCell
  | pnan : PyCell
  | pnone : PyCell
deriving DecidableEq

/-- `astype(str)` on one cell. -/
def cellToStr : PyCell → String
  | .pstr s => s
  | .pnan => "nan"
  | .pnone => "None"

/-- Python `str.strip()` (ASCII-whitespace fragment). -/
def pyStrip (l : List Char) : List Char :=
  ((l.dropWhile isSpacePy).reverse.dropWhile isSpacePy).reverse

namespace Processor

/-- `drop_duplicates(subset=["user_id", "phone"], keep="first")`: keep the
first row carrying each `(user_id, phone)` key. -/
def dedupRows (seen : List (String × Option String)) : List Rec → List Rec
  | [] => []
  | r :: t =>
    if (r.user_id, r.phone) ∈ seen then dedupRows seen t
    else r :: dedupRows ((r.user_id, r.phone) :: seen) t

/-- The `(user_id, phone)` key column of a row list. -/
def pairsOf (l : List Rec) : List (String × Option String) :=
  l.map fun r => (r.user_id, r.phone)

/-- One left-merge group: the rows `pd.merge(best, excel, on="user_id",
how="left")` produces for a single `best` (candidate) row `c` — one row per
matching `excel` (source) row, or a single row with a null source side when
no `excel` row shares the identifier. -/
def joinOne (excel : List Rec) (c : Rec) : List (Rec × Option Rec) :=
  if excel.filter (fun s => s.user_id == c.user_id) = [] then [(c, none)]
  else (excel.filter (fun s => s.user_id == c.user_id)).map fun s => (c, some s)

/-- The full left merge, in candidate order. -/
def joinRows (excel : List Rec) : List Rec → List (Rec × Option Rec)
  | [] => []
  | c :: t => joinOne excel c ++ joinRows excel t

/-- `merged["phone_excel"].combine_first(merged["phone_best"])` on one merged
row: the source (excel) phone when present, otherwise the candidate phone. -/
def resolvePhone (co : Rec × Option Rec) : Option String :=
  match co.2 with
  | some s =>
    match s.phone with
    | some p => some p
    | none => co.1.phone
  | none => co.1.phone

/-- `match_lists(excel_df, best_df)` of `processor.py`: left-merge `best_df`
(candidates) against `excel_df` (source) on `user_id`, resolve the phone with
`combine_first` (source wins), drop rows with a null phone
(`dropna(subset=["user_id", "phone"])`; `user_id` is a string column and
never null), reset `memo` to `""`, and deduplicate on `(user_id, phone)`. -/
def match_lists (excel_df best_df : List Rec) : List Rec :=
  dedupRows []
    ((joinRows excel_df best_df).filterMap fun co =>
      match resolvePhone co with
      | some p => some { user_id := co.1.user_id, phone := some p, memo := "" }
      | none => none)

/-- Number of columns pandas infers for the parsed table. -/
def tableCols (t : List (List PyCell)) : Nat :=
  t.foldr (fun r acc => max r.length acc) 0

/-- Positional cell access; absent cells are null. -/
def getCell (row : List PyCell) (i : Nat) : PyCell := row.getD i PyCell.pnan

/-- The character class `[\s,]` that `process_best_list` splits a
single-column row on. -/
def isSplitCh (c : Char) : Bool := isSpacePy c || c == ','

/-- The `re`-based one-step `str.split` on the pattern `[\s,]+`: split at the first maximal run of
separator characters, if any. -/
def splitOnce : List Char → List Char × Option (List Char)
  | [] => ([], none)
  | c :: t =>
    if isSplitCh c then ([], some (t.dropWhile isSplitCh))
    else
      match splitOnce t with
      | (a, b) => (c :: a, b)

/-- The split of each single-column row, after `astype(str)`. -/
def oneColParts (t : List (List PyCell)) : List (List Char × Option (List Char)) :=
  t.map fun row => splitOnce (cellToStr (getCell row 0)).data

/-- A two-or-more-column row made into a record: `user_id` and `phone` are
the first two cells after `astype(str).str.strip()`.  The phone column of
`best_df` is always a string — pandas nulls become the literal text `"nan"`. -/
def bestRecOfRow (row : List PyCell) : Rec :=
  { user_id := String.mk (pyStrip (cellToStr (getCell row 0)).data)
    phone := some (String.mk (pyStrip (cellToStr (getCell row 1)).data))
    memo := "" }

/-- `process_best_list` of `processor.py`, starting from the parsed table
(`pd.read_csv` itself is I/O plumbing outside the core).  A single-column
table is split on `[\s,]+` into at most two fields; the phone column exists
only if some row actually split, otherwise it is assigned `""`.  Missing
split parts print as `"None"` under `astype(str)`.  The final frame is
deduplicated on `(user_id, phone)`; `dropna(subset=["user_id"])` is a no-op
because the column was just converted to strings. -/
def process_best_list (t : List (List PyCell)) : List Rec :=
  if tableCols t ≤ 1 then
    if (oneColParts t).all (fun p => p.2.isNone) then
      dedupRows []
        ((oneColParts t).map fun p =>
          { user_id := String.mk (pyStrip p.1), phone := some "", memo := "" })
    else
      dedupRows []
        ((oneColParts t).map fun p =>
          { user_id := String.mk (pyStrip p.1)
            phone := some (String.mk (pyStrip
              (match p.2 with
               | some q => q
               | none => "None".data)))
            memo := "" })
  else dedupRows [] (t.map bestRecOfRow)

end Processor

namespace StreamlitApp

/-- `CHAR_MAP` of `streamlit_app.py`, verbatim.  Its last entries are keyed
by multi-character Korean digit-words. -/
def CHAR_MAP : List (String × String) :=
  [("o", "0"), ("O", "0"), ("q", "0"), ("Q", "0"),
   ("l", "1"), ("I", "1"), ("i", "1"), ("L", "1"),
   ("Z", "2"), ("z", "2"),
   ("S", "5"), ("s", "5"),
   ("B", "8"), ("b", "8"),
   ("G", "6"), ("g", "6"),
   ("T", "7"), ("t", "7"),
   ("A", "4"), ("a", "4"),
   ("공", "0"), ("영", "0"),
   ("일", "1"), ("둘", "2"), ("셋", "3"), ("넷", "4"),
   ("다섯", "5"), ("여섯", "6"),
   ("칠", "7"), ("팔", "8"),
   ("아홉", "9")]

/-- `CHAR_MAP.get(ch, ch)` for a single character `ch`: a one-character
string can only ever hit the one-character keys of the dictionary. -/
def mapChar (c : Char) : String :=
  match CHAR_MAP.lookup (String.mk [c]) with
  | some d => d
  | none => String.mk [c]

/-- `_normalize` of `streamlit_app.py`:
`"".join(CHAR_MAP.get(ch, ch) for ch in text)` — character by character. -/
def normalize (t : String) : List Char :=
  (t.data.map mapChar).foldr (fun s acc => s.data ++ acc) []

/-- One anchored attempt of `PHONE_PATTERN = 010[0-9]{8}`. -/
def match010 : List Char → Option (List Char × List Char)
  | '0' :: '1' :: '0' :: rest =>
    match takeDigits 8 rest with
    | some (d, r) => some ('0' :: '1' :: '0' :: d, r)
    | none => none
  | _ => none

/-- `PHONE_PATTERN.findall`: all non-overlapping matches, scanning left to
right and resuming after each match.  The fuel argument (instantiated with
the list length, which bounds the number of scan steps) keeps the recursion
structural. -/
def findallAux : Nat → List Char → List (List Char)
  | 0, _ => []
  | _, [] => []
  | fuel + 1, c :: t =>
    match match010 (c :: t) with
    | some (m, rest) => m :: findallAux fuel rest
    | none => findallAux fuel t

/-- `f"{f[:3]}-{f[3:7]}-{f[7:]}"`. -/
def fmt010 (f : List Char) : String :=
  String.mk (f.take 3 ++ '-' :: ((f.drop 3).take 4 ++ '-' :: f.drop 7))

/-- First-occurrence deduplication of the formatted strings.  The Python code
materializes a `set`, whose iteration order is unspecified; only the
membership and cardinality of this list are meaningful. -/
def dedupStrings (seen : List String) : List String → List String
  | [] => []
  | s :: t =>
    if s ∈ seen then dedupStrings seen t
    else s :: dedupStrings (s :: seen) t

/-- `extract_phone_numbers` of `streamlit_app.py`: normalize, strip every
non-`[0-9]` character, `findall` the `010[0-9]{8}` pattern, format each match
and collect the distinct results. -/
def extract_phone_numbers (t : String) : List String :=
  let digits := (normalize t).filter isDigitCh
  dedupStrings [] ((findallAux digits.length digits).map fmt010)

end StreamlitApp

theorem string_data_mk (l : List Char) : (String.mk l).data = l := rfl

theorem sep_not_digit (c : Char) (h : isSepCh c = true) : isDigitCh c = false := by
  simp only [isSepCh, isSpacePy, Bool.or_eq_true, beq_iff_eq] at h
  have h' : c = '-' ∨ c = ' ' ∨ c = '\t' ∨ c = '\n' ∨ c = '\x0d' ∨ c = '\x0b' ∨
      c = '\x0c' ∨ c = '.' ∨ c = ')' := by tauto
  rcases h' with rfl | rfl | rfl | rfl | rfl | rfl | rfl | rfl | rfl <;> decide

theorem all_filter (p : Char → Bool) (l : List Char) : (l.filter p).all p = true :=
  List.all_eq_true.mpr fun _ hx => (List.mem_filter.mp hx).2

theorem filter_all_digit {l : List Char} (h : l.all isDigitCh = true) :
    l.filter isDigitCh = l :=
  List.filter_eq_self.mpr fun a ha => List.all_eq_true.mp h a ha

theorem filter_sep_nil {l : List Char} (h : l.all isSepCh = true) :
    l.filter isDigitCh = [] :=
  List.filter_eq_nil_iff.mpr fun a ha => by
    simp [sep_not_digit a (List.all_eq_true.mp h a ha)]

theorem all_takeWhile (p : Char → Bool) (l : List Char) :
    (l.takeWhile p).all p = true := by
  induction l with
  | nil => rfl
  | cons c t ih =>
    by_cases h : p c
    · simp [List.takeWhile_cons, h, ih]
    · simp [List.takeWhile_cons, h]

theorem all_take {p : Char → Bool} {l : List Char} (h : l.all p = true) (n : Nat) :
    (l.take n).all p = true :=
  List.all_eq_true.mpr fun x hx => List.all_eq_true.mp h x (List.mem_of_mem_take hx)

theorem all_drop {p : Char → Bool} {l : List Char} (h : l.all p = true) (n : Nat) :
    (l.drop n).all p = true :=
  List.all_eq_true.mpr fun x hx => List.all_eq_true.mp h x (List.mem_of_mem_drop hx)

theorem takeDigits_spec : ∀ (n : Nat) (l d r : List Char),
    takeDigits n l = some (d, r) →
    d.length = n ∧ d.all isDigitCh = true ∧ l = d ++ r := by
  intro n
  induction n with
  | zero =>
    intro l d r h
    simp only [takeDigits, Option.some.injEq, Prod.mk.injEq] at h
    obtain ⟨h1, h2⟩ := h
    subst h1; subst h2; simp
  | succ n ih =>
    intro l d r h
    cases l with
    | nil => simp [takeDigits] at h
    | cons c t =>
      simp only [takeDigits] at h
      by_cases hc : isDigitCh c
      · rw [if_pos hc] at h
        cases h2 : takeDigits n t with
        | none => rw [h2] at h; exact absurd h (by simp)
        | some pr =>
          obtain ⟨d', r'⟩ := pr
          rw [h2] at h
          simp only [Option.some.injEq, Prod.mk.injEq] at h
          obtain ⟨hd, hr⟩ := h
          obtain ⟨hl, ha, he⟩ := ih t d' r' h2
          subst hd; subst hr
          refine ⟨by simp [hl], ?_, by simp [he]⟩
          simp [List.all_cons, hc, ha]
      · rw [if_neg hc] at h; exact absurd h (by simp)

theorem matchCore_digits (k m : Nat) (l res : List Char)
    (h : Processor.matchCore k m l = some res) :
    (res.filter isDigitCh).length = k + m + 4 := by
  unfold Processor.matchCore at h
  split at h
  · exact absurd h (by simp)
  · rename_i g1 r1 h1
    split at h
    · exact absurd h (by simp)
    · rename_i g2 r3 h2
      split at h
      · exact absurd h (by simp)
      · rename_i g3 rr h3
        simp only [Option.some.injEq] at h
        subst h
        obtain ⟨hk, hg1, -⟩ := takeDigits_spec k l g1 r1 h1
        obtain ⟨hm, hg2, -⟩ := takeDigits_spec m _ g2 r3 h2
        obtain ⟨h4, hg3, -⟩ := takeDigits_spec 4 _ g3 rr h3
        simp only [List.filter_append, filter_all_digit hg1, filter_all_digit hg2,
          filter_all_digit hg3, filter_sep_nil (all_takeWhile isSepCh r1),
          filter_sep_nil (all_takeWhile isSepCh r3), List.append_nil,
          List.nil_append, List.length_append]
        omega

theorem matchAt_digits (l res : List Char) (h : Processor.matchAt l = some res) :
    9 ≤ (res.filter isDigitCh).length ∧ (res.filter isDigitCh).length ≤ 11 := by
  have step : ∀ (k m : Nat) (rest m' : List Char),
      Processor.matchCore k m rest = some m' →
      ((('0' :: m').filter isDigitCh).length) = k + m + 5 := by
    intro k m rest m' hh
    rw [List.filter_cons_of_pos (by decide)]
    simp [matchCore_digits k m rest m' hh]
  cases l with
  | nil => exact absurd h (by simp [Processor.matchAt])
  | cons c rest =>
    simp only [Processor.matchAt] at h
    split at h
    · split at h
      · rename_i m1 h1
        simp only [Option.some.injEq] at h
        subst h
        rw [step 2 4 rest m1 h1]; omega
      · split at h
        · rename_i m2 h2
          simp only [Option.some.injEq] at h
          subst h
          rw [step 2 3 rest m2 h2]; omega
        · split at h
          · rename_i m3 h3
            simp only [Option.some.injEq] at h
            subst h
            rw [step 1 4 rest m3 h3]; omega
          · split at h
            · rename_i m4 h4
              simp only [Option.some.injEq] at h
              subst h
              rw [step 1 3 rest m4 h4]; omega
            · exact absurd h (by simp)
    · exact absurd h (by simp)

theorem searchPhone_digits : ∀ (l res : List Char),
    Processor.searchPhone l = some res →
    9 ≤ (res.filter isDigitCh).length ∧ (res.filter isDigitCh).length ≤ 11 := by
  intro l
  induction l with
  | nil => intro res h; exact absurd h (by simp [Processor.searchPhone])
  | cons c t ih =>
    intro res h
    unfold Processor.searchPhone at h
    cases h1 : Processor.matchAt (c :: t) with
    | some m =>
      rw [h1] at h
      simp only [Option.some.injEq] at h
      subst h
      exact matchAt_digits _ _ h1
    | none => rw [h1] at h; exact ih res h

theorem split_groups (ds : List Char) (a b n : Nat) (hn : n = a + b) :
    ds = ds.take a ++ (ds.drop a).take b ++ ds.drop n := by
  subst hn
  have h1 : (ds.drop a).take b ++ ds.drop (a + b) = ds.drop a := by
    rw [← List.drop_drop, List.take_append_drop]
  calc ds = ds.take a ++ ds.drop a := (List.take_append_drop a ds).symm
    _ = ds.take a ++ ((ds.drop a).take b ++ ds.drop (a + b)) := by rw [h1]
    _ = ds.take a ++ (ds.drop a).take b ++ ds.drop (a + b) := by
        rw [List.append_assoc]

theorem filter_three_groups (ds : List Char) (hall : ds.all isDigitCh = true)
    (a b n : Nat) (hn : n = a + b) :
    (ds.take a ++ '-' :: ((ds.drop a).take b ++ '-' :: ds.drop n)).filter
      isDigitCh = ds := by
  subst hn
  have hA : (ds.take a).filter isDigitCh = ds.take a :=
    filter_all_digit (all_take hall a)
  have hB : ((ds.drop a).take b).filter isDigitCh = (ds.drop a).take b :=
    filter_all_digit (all_take (all_drop hall a) b)
  have hC : (ds.drop (a + b)).filter isDigitCh = ds.drop (a + b) :=
    filter_all_digit (all_drop hall (a + b))
  have hneg : ¬(isDigitCh '-' = true) := by decide
  simp only [List.filter_append, List.filter_cons_of_neg hneg, hA, hB, hC]
  rw [← List.drop_drop, List.take_append_drop, List.take_append_drop]

/-- Claim C9: every phone string returned by `extract_phone` carries between
9 and 11 digit characters, and an all-digit (unformatted fallback) result is
exactly 9 characters long; in particular a 12-or-more-digit output is
impossible. -/
theorem C9_digit_bounds (t r : String)
    (h : Processor.extract_phone t = some r) :
    (9 ≤ (r.data.filter isDigitCh).length ∧
      (r.data.filter isDigitCh).length ≤ 11)
    ∧ (r.data.all isDigitCh = true → r.data.length = 9) := by
  unfold Processor.extract_phone at h
  split at h
  · exact absurd h (by simp)
  · split at h
    · exact absurd h (by simp)
    · rename_i m hs
      obtain ⟨hlo, hhi⟩ := searchPhone_digits _ m hs
      have hall : (m.filter isDigitCh).all isDigitCh = true := all_filter _ _
      rw [Option.map_eq_some'] at h
      obtain ⟨fd, hfd, hr⟩ := h
      subst hr
      rw [string_data_mk]
      set ds := m.filter isDigitCh with hds
      unfold Processor.formatDigits at hfd
      split at hfd
      · exact absurd hfd (by simp)
      · rename_i h9
        split at hfd
        · rename_i h02
          obtain ⟨h021, h0210⟩ := h02
          simp only [Option.some.injEq] at hfd
          subst hfd
          constructor
          · rw [filter_three_groups ds hall 2 4 6 (by norm_num)]
            omega
          · intro hallr
            exfalso
            have hm : '-' ∈ ds.take 2 ++ '-' ::
                ((ds.drop 2).take 4 ++ '-' :: ds.drop 6) :=
              List.mem_append.mpr (Or.inr (List.mem_cons_self _ _))
            exact absurd (List.all_eq_true.mp hallr _ hm) (by decide)
        · rename_i h02n
          split at hfd
          · rename_i h10
            simp only [Option.some.injEq] at hfd
            subst hfd
            constructor
            · rw [filter_three_groups ds hall 3 3 6 (by norm_num)]
              omega
            · intro hallr
              exfalso
              have hm : '-' ∈ ds.take 3 ++ '-' ::
                  ((ds.drop 3).take 3 ++ '-' :: ds.drop 6) :=
                List.mem_append.mpr (Or.inr (List.mem_cons_self _ _))
              exact absurd (List.all_eq_true.mp hallr _ hm) (by decide)
          · rename_i h10n
            split at hfd
            · rename_i h11
              simp only [Option.some.injEq] at hfd
              subst hfd
              constructor
              · rw [filter_three_groups ds hall 3 4 7 (by norm_num)]
                omega
              · intro hallr
                exfalso
                have hm : '-' ∈ ds.take 3 ++ '-' ::
                    ((ds.drop 3).take 4 ++ '-' :: ds.drop 7) :=
                  List.mem_append.mpr (Or.inr (List.mem_cons_self _ _))
                exact absurd (List.all_eq_true.mp hallr _ hm) (by decide)
            · rename_i h11n
              simp only [Option.some.injEq] at hfd
              subst hfd
              have h9' : ds.length = 9 := by omega
              constructor
              · rw [filter_all_digit hall]
                omega
              · intro _
                exact h9'

/-- Claim C9 witness: `extract_phone` on a canonical mobile number, with the
digit-count bounds instantiated there. -/
theorem C9_witness :
    Processor.extract_phone "010-1234-5678" = some "010-1234-5678" ∧
    ((9 ≤ (("010-1234-5678" : String).data.filter isDigitCh).length ∧
      (("010-1234-5678" : String).data.filter isDigitCh).length ≤ 11) ∧
     (("010-1234-5678" : String).data.all isDigitCh = true →
      ("010-1234-5678" : String).data.length = 9)) :=
  ⟨by decide, C9_digit_bounds "010-1234-5678" "010-1234-5678" (by decide)⟩

/-- Claim C3: the digit-count formatting rule of `extract_phone` — 10 digits
starting `02` group as 2-4-4, any other 10 digits as 3-3-4, 11 digits as
3-4-4, with the two dashes separating all-digit groups of exactly those
widths. -/
theorem C3_canonical_formatting (ds : List Char)
    (hall : ds.all isDigitCh = true) :
    (ds.take 2 = ['0', '2'] → ds.length = 10 →
      ∃ a b c, ds = a ++ b ++ c ∧ a.length = 2 ∧ b.length = 4 ∧ c.length = 4 ∧
        a.all isDigitCh = true ∧ b.all isDigitCh = true ∧
        c.all isDigitCh = true ∧
        Processor.formatDigits ds = some (a ++ '-' :: (b ++ '-' :: c)))
    ∧ (ds.take 2 ≠ ['0', '2'] → ds.length = 10 →
      ∃ a b c, ds = a ++ b ++ c ∧ a.length = 3 ∧ b.length = 3 ∧ c.length = 4 ∧
        a.all isDigitCh = true ∧ b.all isDigitCh = true ∧
        c.all isDigitCh = true ∧
        Processor.formatDigits ds = some (a ++ '-' :: (b ++ '-' :: c)))
    ∧ (ds.length = 11 →
      ∃ a b c, ds = a ++ b ++ c ∧ a.length = 3 ∧ b.length = 4 ∧ c.length = 4 ∧
        a.all isDigitCh = true ∧ b.all isDigitCh = true ∧
        c.all isDigitCh = true ∧
        Processor.formatDigits ds = some (a ++ '-' :: (b ++ '-' :: c))) := by
  refine ⟨fun h02 h10 => ?_, fun h02n h10 => ?_, fun h11 => ?_⟩
  · refine ⟨ds.take 2, (ds.drop 2).take 4, ds.drop 6,
      split_groups ds 2 4 6 (by norm_num), ?_, ?_, ?_,
      all_take hall 2, all_take (all_drop hall 2) 4, all_drop hall 6, ?_⟩
    · rw [List.length_take, h10]; decide
    · rw [List.length_take, List.length_drop, h10]; decide
    · rw [List.length_drop, h10]
    · unfold Processor.formatDigits
      rw [if_neg (by omega), if_pos ⟨h02, h10⟩]
  · refine ⟨ds.take 3, (ds.drop 3).take 3, ds.drop 6,
      split_groups ds 3 3 6 (by norm_num), ?_, ?_, ?_,
      all_take hall 3, all_take (all_drop hall 3) 3, all_drop hall 6, ?_⟩
    · rw [List.length_take, h10]; decide
    · rw [List.length_take, List.length_drop, h10]; decide
    · rw [List.length_drop, h10]
    · unfold Processor.formatDigits
      rw [if_neg (by omega), if_neg (fun hc => h02n hc.1), if_pos h10]
  · refine ⟨ds.take 3, (ds.drop 3).take 4, ds.drop 7,
      split_groups ds 3 4 7 (by norm_num), ?_, ?_, ?_,
      all_take hall 3, all_take (all_drop hall 3) 4, all_drop hall 7, ?_⟩
    · rw [List.length_take, h11]; decide
    · rw [List.length_take, List.length_drop, h11]; decide
    · rw [List.length_drop, h11]
    · unfold Processor.formatDigits
      rw [if_neg (by omega), if_neg (by rintro ⟨-, hc⟩; omega),
        if_neg (by omega), if_pos h11]

/-- Claim C3 witness: the Seoul-prefix rule applied to the concrete 10-digit
string `0212345678`. -/
theorem C3_witness :
    ∃ a b c, ("0212345678" : String).data = a ++ b ++ c ∧ a.length = 2 ∧
      b.length = 4 ∧ c.length = 4 ∧ a.all isDigitCh = true ∧
      b.all isDigitCh = true ∧ c.all isDigitCh = true ∧
      Processor.formatDigits ("0212345678" : String).data =
        some (a ++ '-' :: (b ++ '-' :: c)) :=
  (C3_canonical_formatting ("0212345678" : String).data (by decide)).1
    (by decide) (by decide)

/-- Claim C4 counterexample: an 8-digit extracted digit string is rejected
(`None`) by the formatting stage of `extract_phone` (lines 42–53 of
`processor.py`), not passed through verbatim as the claim states. -/
theorem C4_counterexample :
    Processor.formatDigits ("12345678" : String).data = none := by decide

/-- Claim C4 (amended): digit strings shorter than 9 are rejected with
`None`; a digit string whose length is neither 10 nor 11 but at least 9 —
exactly 9, or 12 and more — is passed through verbatim. -/
theorem C4_amended (ds : List Char) :
    (ds.length < 9 → Processor.formatDigits ds = none)
    ∧ (ds.length = 9 → Processor.formatDigits ds = some ds)
    ∧ (12 ≤ ds.length → Processor.formatDigits ds = some ds) := by
  refine ⟨fun h => ?_, fun h => ?_, fun h => ?_⟩
  · unfold Processor.formatDigits
    rw [if_pos h]
  · unfold Processor.formatDigits
    rw [if_neg (by omega), if_neg (by rintro ⟨-, hc⟩; omega),
      if_neg (by omega), if_neg (by omega)]
  · unfold Processor.formatDigits
    rw [if_neg (by omega), if_neg (by rintro ⟨-, hc⟩; omega),
      if_neg (by omega), if_neg (by omega)]

/-- Claim C4 witness: the 9-digit and 12-digit pass-through cases at concrete
inputs. -/
theorem C4_witness :
    Processor.formatDigits ("012345678" : String).data =
      some ("012345678" : String).data ∧
    Processor.formatDigits ("123456789012" : String).data =
      some ("123456789012" : String).data :=
  ⟨(C4_amended ("012345678" : String).data).2.1 (by decide),
   (C4_amended ("123456789012" : String).data).2.2 (by decide)⟩

/-- Claim C1 counterexample: on a text holding two distinct phone numbers,
`extract_phone` returns the single canonical entry of the first match only —
`re.search` stops at the leftmost match, so two entries are never
produced. -/
theorem C1_counterexample :
    Processor.extract_phone "010-1111-1111 010-2222-2222" =
      some "010-1111-1111" := by decide

/-- Claim C1 (amended): `extract_phone` yields at most one entry, the
canonical form of the leftmost phone-shaped match, so a text with two
distinct phones yields exactly one entry; the companion
`extract_phone_numbers` collects all non-overlapping matches of its
010-specific pattern over the digit-stripped text (duplicates removed, order
unspecified), yielding both entries for the same text. -/
theorem C1_amended :
    (Processor.extract_phone "010-1111-1111 010-2222-2222").toList =
      ["010-1111-1111"]
    ∧ (StreamlitApp.extract_phone_numbers
        "010-1111-1111 010-2222-2222").length = 2
    ∧ "010-1111-1111" ∈
        StreamlitApp.extract_phone_numbers "010-1111-1111 010-2222-2222"
    ∧ "010-2222-2222" ∈
        StreamlitApp.extract_phone_numbers "010-1111-1111 010-2222-2222" := by
  decide

/-- Claim C6: the multi-character Korean digit-words of
`streamlit_app.CHAR_MAP` (`다섯`, `여섯`, `아홉`) are present in the table but
unreachable — `_normalize` looks characters up one at a time — so the
concatenated digit-word spelling of `010-1234-5678` normalizes to
`0101234다섯여섯78` and extraction returns the empty list instead of the
expected `["010-1234-5678"]`. -/
theorem C6_code_eval :
    StreamlitApp.CHAR_MAP.lookup "다섯" = some "5" ∧
    StreamlitApp.CHAR_MAP.lookup "여섯" = some "6" ∧
    StreamlitApp.CHAR_MAP.lookup "아홉" = some "9" ∧
    StreamlitApp.normalize "공일공일둘셋넷다섯여섯칠팔" =
      ("0101234다섯여섯78" : String).data ∧
    StreamlitApp.extract_phone_numbers "공일공일둘셋넷다섯여섯칠팔" = [] := by
  decide

/-- Claim C7: the Latin-confusable substitution maps `O`→`0`, `I`→`1`,
`Z`→`2` before the pattern search, so both extractors turn
`OIO-IZ34-56Z8` into exactly the canonical `010-1234-5628`. -/
theorem C7_confusables :
    Processor.mapChar 'O' = "0" ∧ Processor.mapChar 'I' = "1" ∧
    Processor.mapChar 'Z' = "2" ∧
    Processor.extract_phone "OIO-IZ34-56Z8" = some "010-1234-5628" ∧
    StreamlitApp.extract_phone_numbers "OIO-IZ34-56Z8" =
      ["010-1234-5628"] := by
  decide

theorem pairsOf_cons (r : Rec) (l : List Rec) :
    Processor.pairsOf (r :: l) =
      (r.user_id, r.phone) :: Processor.pairsOf l := rfl

theorem mem_pairsOf {l : List Rec} {uid : String} {po : Option String} :
    (uid, po) ∈ Processor.pairsOf l ↔
      ∃ r ∈ l, r.user_id = uid ∧ r.phone = po := by
  constructor
  · intro h
    obtain ⟨r, hr, he⟩ := List.mem_map.mp h
    exact ⟨r, hr, congrArg Prod.fst he, congrArg Prod.snd he⟩
  · rintro ⟨r, hr, h1, h2⟩
    exact List.mem_map.mpr ⟨r, hr, by rw [h1, h2]⟩

theorem dedupRows_subset :
    ∀ (t : List Rec) (seen : List (String × Option String)) (r : Rec),
    r ∈ Processor.dedupRows seen t → r ∈ t := by
  intro t
  induction t with
  | nil => intro seen r h; exact absurd h (List.not_mem_nil r)
  | cons x t ih =>
    intro seen r h
    unfold Processor.dedupRows at h
    by_cases hm : (x.user_id, x.phone) ∈ seen
    · rw [if_pos hm] at h
      exact List.mem_cons_of_mem x (ih seen r h)
    · rw [if_neg hm] at h
      rcases List.mem_cons.mp h with rfl | h'
      · exact List.mem_cons_self _ _
      · exact List.mem_cons_of_mem _ (ih _ r h')

theorem pairs_dedupRows :
    ∀ (t : List Rec) (seen : List (String × Option String))
      (k : String × Option String),
    k ∈ Processor.pairsOf (Processor.dedupRows seen t) ↔
      (k ∈ Processor.pairsOf t ∧ k ∉ seen) := by
  intro t
  induction t with
  | nil => intro seen k; simp [Processor.dedupRows, Processor.pairsOf]
  | cons r t ih =>
    intro seen k
    unfold Processor.dedupRows
    by_cases hm : (r.user_id, r.phone) ∈ seen
    · rw [if_pos hm, ih]
      constructor
      · rintro ⟨h1, h2⟩
        refine ⟨?_, h2⟩
        rw [pairsOf_cons]
        exact List.mem_cons_of_mem _ h1
      · rintro ⟨h1, h2⟩
        rw [pairsOf_cons] at h1
        rcases List.mem_cons.mp h1 with rfl | h1'
        · exact absurd hm h2
        · exact ⟨h1', h2⟩
    · rw [if_neg hm, pairsOf_cons]
      constructor
      · intro h1
        rcases List.mem_cons.mp h1 with rfl | h1'
        · exact ⟨by rw [pairsOf_cons]; exact List.mem_cons_self _ _, hm⟩
        · obtain ⟨ha, hb⟩ := (ih _ k).mp h1'
          refine ⟨by rw [pairsOf_cons]; exact List.mem_cons_of_mem _ ha,
            fun hs => hb (List.mem_cons_of_mem _ hs)⟩
      · rintro ⟨h1, h2⟩
        rw [pairsOf_cons] at h1
        rcases List.mem_cons.mp h1 with rfl | h1'
        · exact List.mem_cons_self _ _
        · by_cases hk : k = (r.user_id, r.phone)
          · rw [hk]; exact List.mem_cons_self _ _
          · refine List.mem_cons_of_mem _ ((ih _ k).mpr ⟨h1', fun hs => ?_⟩)
            rcases List.mem_cons.mp hs with h | h
            · exact hk h
            · exact h2 h

theorem mem_joinRows {S : List Rec} :
    ∀ (C : List Rec) (co : Rec × Option Rec),
    co ∈ Processor.joinRows S C ↔ ∃ c ∈ C, co ∈ Processor.joinOne S c := by
  intro C
  induction C with
  | nil => intro co; simp [Processor.joinRows]
  | cons c t ih =>
    intro co
    simp only [Processor.joinRows, List.mem_append, ih co, List.mem_cons]
    constructor
    · rintro (h | ⟨c', hc', h⟩)
      · exact ⟨c, Or.inl rfl, h⟩
      · exact ⟨c', Or.inr hc', h⟩
    · rintro ⟨c', rfl | hc', h⟩
      · exact Or.inl h
      · exact Or.inr ⟨c', hc', h⟩

theorem mem_joinOne_matched {S : List Rec} {c s : Rec} (hs : s ∈ S)
    (hid : s.user_id = c.user_id) : (c, some s) ∈ Processor.joinOne S c := by
  unfold Processor.joinOne
  have hmem : s ∈ S.filter (fun x => x.user_id == c.user_id) :=
    List.mem_filter.mpr ⟨hs, by simp [hid]⟩
  rw [if_neg (List.ne_nil_of_mem hmem)]
  exact List.mem_map.mpr ⟨s, hmem, rfl⟩

theorem mem_joinOne_unmatched {S : List Rec} {c : Rec}
    (h : ∀ s ∈ S, s.user_id ≠ c.user_id) :
    (c, none) ∈ Processor.joinOne S c := by
  unfold Processor.joinOne
  rw [if_pos (List.filter_eq_nil_iff.mpr fun s hs => by simp [h s hs])]
  exact List.mem_singleton.mpr rfl

theorem joinOne_elim {S : List Rec} {c : Rec} {co : Rec × Option Rec}
    (h : co ∈ Processor.joinOne S c) :
    (co = (c, none) ∧ ∀ s ∈ S, s.user_id ≠ c.user_id) ∨
    (∃ s, s ∈ S ∧ s.user_id = c.user_id ∧ co = (c, some s)) := by
  unfold Processor.joinOne at h
  split at h
  · rename_i hnil
    left
    refine ⟨List.mem_singleton.mp h, fun s hs heq => ?_⟩
    have hmem : s ∈ S.filter (fun x => x.user_id == c.user_id) :=
      List.mem_filter.mpr ⟨hs, by simp [heq]⟩
    rw [hnil] at hmem
    exact absurd hmem (List.not_mem_nil s)
  · right
    obtain ⟨s, hsf, he⟩ := List.mem_map.mp h
    obtain ⟨hs, hbe⟩ := List.mem_filter.mp hsf
    exact ⟨s, hs, by simpa using hbe, he.symm⟩

theorem resolvePhone_none (c : Rec) :
    Processor.resolvePhone (c, none) = c.phone := rfl

theorem resolvePhone_src (c s : Rec) (p : String) (h : s.phone = some p) :
    Processor.resolvePhone (c, some s) = some p := by
  show (match s.phone with | some p => some p | none => c.phone) = some p
  rw [h]

theorem resolvePhone_fallback (c s : Rec) (h : s.phone = none) :
    Processor.resolvePhone (c, some s) = c.phone := by
  show (match s.phone with | some p => some p | none => c.phone) = c.phone
  rw [h]

theorem mem_pairs_match_intro {S C : List Rec} {co : Rec × Option Rec}
    {p : String} (hco : co ∈ Processor.joinRows S C)
    (hres : Processor.resolvePhone co = some p) :
    (co.1.user_id, some p) ∈
      Processor.pairsOf (Processor.match_lists S C) := by
  unfold Processor.match_lists
  rw [pairs_dedupRows]
  refine ⟨?_, by simp⟩
  rw [mem_pairsOf]
  refine ⟨{ user_id := co.1.user_id, phone := some p, memo := "" },
    ?_, rfl, rfl⟩
  rw [List.mem_filterMap]
  exact ⟨co, hco, by rw [hres]⟩

theorem mem_pairs_match_elim {S C : List Rec} {uid : String}
    {po : Option String}
    (h : (uid, po) ∈ Processor.pairsOf (Processor.match_lists S C)) :
    ∃ co, co ∈ Processor.joinRows S C ∧ co.1.user_id = uid ∧
      ∃ p, Processor.resolvePhone co = some p ∧ po = some p := by
  unfold Processor.match_lists at h
  rw [pairs_dedupRows] at h
  obtain ⟨h, -⟩ := h
  rw [mem_pairsOf] at h
  obtain ⟨r, hr, h1, h2⟩ := h
  rw [List.mem_filterMap] at hr
  obtain ⟨co, hco, he⟩ := hr
  cases hres : Processor.resolvePhone co with
  | none => rw [hres] at he; exact absurd he (by simp)
  | some p =>
    rw [hres] at he
    simp only [Option.some.injEq] at he
    subst he
    exact ⟨co, hco, h1, p, hres, h2.symm⟩

theorem match_lists_memo {S C : List Rec} {r : Rec}
    (h : r ∈ Processor.match_lists S C) : r.memo = "" := by
  unfold Processor.match_lists at h
  have h' := dedupRows_subset _ _ _ h
  rw [List.mem_filterMap] at h'
  obtain ⟨co, -, he⟩ := h'
  cases hres : Processor.resolvePhone co with
  | none => rw [hres] at he; exact absurd he (by simp)
  | some p =>
    rw [hres] at he
    simp only [Option.some.injEq] at he
    subst he
    rfl

/-- Claim C2: when a candidate identifier matches a source record carrying a
phone, `match_lists` emits the source-side phone for that identifier, and — as
long as every source record for the identifier carries a phone — a phone the
source side does not carry never reaches the output, even if the candidate
supplied it. -/
theorem C2_source_phone_wins (S C : List Rec) (c s : Rec) (p : String)
    (hc : c ∈ C) (hs : s ∈ S) (hid : s.user_id = c.user_id)
    (hp : s.phone = some p) :
    (c.user_id, some p) ∈ Processor.pairsOf (Processor.match_lists S C)
    ∧ ∀ q : String,
        (∀ s' ∈ S, s'.user_id = c.user_id → (s'.phone).isSome = true) →
        (∀ s' ∈ S, s'.user_id = c.user_id → s'.phone ≠ some q) →
        (c.user_id, some q) ∉
          Processor.pairsOf (Processor.match_lists S C) := by
  constructor
  · have hco : (c, some s) ∈ Processor.joinRows S C :=
      (mem_joinRows C (c, some s)).mpr ⟨c, hc, mem_joinOne_matched hs hid⟩
    exact mem_pairs_match_intro hco (resolvePhone_src c s p hp)
  · intro q hall hne h
    obtain ⟨co, hco, h1, p', hres, hpo⟩ := mem_pairs_match_elim h
    obtain ⟨c', hc', hone⟩ := (mem_joinRows C co).mp hco
    rcases joinOne_elim hone with ⟨rfl, hunm⟩ | ⟨s'', hs'', hid'', rfl⟩
    · exact hunm s hs (by rw [hid, ← h1])
    · have hid2 : s''.user_id = c.user_id := by rw [hid'']; exact h1
      obtain ⟨ps, hps⟩ := Option.isSome_iff_exists.mp (hall s'' hs'' hid2)
      rw [resolvePhone_src c' s'' ps hps] at hres
      simp only [Option.some.injEq] at hres hpo
      exact hne s'' hs'' hid2 (by rw [hps, hres, ← hpo])

/-- Claim C2 witness: the tie-break example of the spec, source
`u1 / 010-1111-1111` against candidate `u1 / 010-2222-2222`. -/
theorem C2_witness :
    ("u1", some "010-1111-1111") ∈
      Processor.pairsOf (Processor.match_lists
        [⟨"u1", some "010-1111-1111", ""⟩]
        [⟨"u1", some "010-2222-2222", ""⟩])
    ∧ ("u1", some "010-2222-2222") ∉
      Processor.pairsOf (Processor.match_lists
        [⟨"u1", some "010-1111-1111", ""⟩]
        [⟨"u1", some "010-2222-2222", ""⟩]) := by
  have h := C2_source_phone_wins
    [⟨"u1", some "010-1111-1111", ""⟩]
    [⟨"u1", some "010-2222-2222", ""⟩]
    ⟨"u1", some "010-2222-2222", ""⟩
    ⟨"u1", some "010-1111-1111", ""⟩
    "010-1111-1111" (by decide) (by decide) (by decide) (by decide)
  exact ⟨h.1, h.2 "010-2222-2222" (by decide) (by decide)⟩

/-- Claim C5: a candidate whose identifier never occurs on the source side is
retained by `match_lists` exactly when it carries a phone itself — with a
phone it contributes its `(identifier, phone)` pair, with a null phone every
row for that identifier is dropped. -/
theorem C5_unmatched_candidate (S C : List Rec) (uid : String)
    (hS : ∀ s ∈ S, s.user_id ≠ uid) :
    (∀ c ∈ C, c.user_id = uid → ∀ q : String, c.phone = some q →
      (uid, some q) ∈ Processor.pairsOf (Processor.match_lists S C))
    ∧ ((∀ c ∈ C, c.user_id = uid → c.phone = none) →
      ∀ po : Option String,
        (uid, po) ∉ Processor.pairsOf (Processor.match_lists S C)) := by
  constructor
  · intro c hc hcid q hq
    have hco : (c, none) ∈ Processor.joinRows S C :=
      (mem_joinRows C _).mpr
        ⟨c, hc, mem_joinOne_unmatched fun s hs => by
          rw [hcid]; exact hS s hs⟩
    have hres : Processor.resolvePhone (c, none) = some q := by
      rw [resolvePhone_none]; exact hq
    have := mem_pairs_match_intro hco hres
    rwa [hcid] at this
  · intro hnone po h
    obtain ⟨co, hco, h1, p', hres, hpo⟩ := mem_pairs_match_elim h
    obtain ⟨c', hc', hone⟩ := (mem_joinRows C co).mp hco
    rcases joinOne_elim hone with ⟨rfl, -⟩ | ⟨s'', hs'', hid'', rfl⟩
    · rw [resolvePhone_none, hnone c' hc' h1] at hres
      exact absurd hres (by simp)
    · exact hS s'' hs'' (by rw [hid'']; exact h1)

/-- Claim C5 witness: the pass-through and drop examples of the spec — candidate
`u3 / 010-3333-3333` without a source row is retained, candidate `u2` with a
null phone and no source row contributes nothing. -/
theorem C5_witness :
    ("u3", some "010-3333-3333") ∈
      Processor.pairsOf (Processor.match_lists
        [⟨"u1", some "010-1111-1111", ""⟩]
        [⟨"u3", some "010-3333-3333", ""⟩])
    ∧ ("u2", some "010-2222-2222") ∉
      Processor.pairsOf (Processor.match_lists
        [⟨"u1", some "010-1111-1111", ""⟩]
        [⟨"u2", none, ""⟩]) := by
  refine ⟨?_, ?_⟩
  · exact (C5_unmatched_candidate
      [⟨"u1", some "010-1111-1111", ""⟩]
      [⟨"u3", some "010-3333-3333", ""⟩] "u3" (by decide)).1
      ⟨"u3", some "010-3333-3333", ""⟩ (by decide) (by decide)
      "010-3333-3333" (by decide)
  · exact (C5_unmatched_candidate
      [⟨"u1", some "010-1111-1111", ""⟩]
      [⟨"u2", none, ""⟩] "u2" (by decide)).2 (by decide)
      (some "010-2222-2222")

/-- Claim C8: reconciling a previous reconciliation output against itself
(`match_lists R R`, every row of `R` carrying a phone) neither adds nor loses
`(identifier, phone)` pairs, and every output memo is the empty string. -/
theorem C8_idempotent (R : List Rec)
    (h : ∀ r ∈ R, (r.phone).isSome = true) :
    (∀ (uid : String) (po : Option String),
      (uid, po) ∈ Processor.pairsOf (Processor.match_lists R R) ↔
      (uid, po) ∈ Processor.pairsOf R)
    ∧ ∀ r ∈ Processor.match_lists R R, r.memo = "" := by
  constructor
  · intro uid po
    constructor
    · intro hmem
      obtain ⟨co, hco, h1, p', hres, hpo⟩ := mem_pairs_match_elim hmem
      obtain ⟨c', hc', hone⟩ := (mem_joinRows R co).mp hco
      rcases joinOne_elim hone with ⟨rfl, hunm⟩ | ⟨s'', hs'', hid'', rfl⟩
      · exact absurd rfl (hunm c' hc')
      · obtain ⟨ps, hps⟩ := Option.isSome_iff_exists.mp (h s'' hs'')
        rw [resolvePhone_src c' s'' ps hps] at hres
        simp only [Option.some.injEq] at hres
        subst hres
        rw [mem_pairsOf]
        refine ⟨s'', hs'', ?_, ?_⟩
        · rw [hid'']; exact h1
        · rw [hps, hpo]
    · intro hmem
      rw [mem_pairsOf] at hmem
      obtain ⟨r, hr, h1, h2⟩ := hmem
      obtain ⟨p, hp⟩ := Option.isSome_iff_exists.mp (h r hr)
      have hco : (r, some r) ∈ Processor.joinRows R R :=
        (mem_joinRows R _).mpr ⟨r, hr, mem_joinOne_matched hr rfl⟩
      have hmm := mem_pairs_match_intro hco (resolvePhone_src r r p hp)
      rw [← h1, ← h2, hp]
      exact hmm
  · intro r hr
    exact match_lists_memo hr

/-- Claim C8 witness: a one-row reconciliation output matched against
itself keeps its single pair and resets the memo. -/
theorem C8_witness :
    (("u1", (some "010-1111-1111" : Option String)) ∈
        Processor.pairsOf (Processor.match_lists
          [⟨"u1", some "010-1111-1111", ""⟩]
          [⟨"u1", some "010-1111-1111", ""⟩]) ↔
      ("u1", (some "010-1111-1111" : Option String)) ∈
        Processor.pairsOf [(⟨"u1", some "010-1111-1111", ""⟩ : Rec)])
    ∧ ∀ r ∈ Processor.match_lists
          [(⟨"u1", some "010-1111-1111", ""⟩ : Rec)]
          [(⟨"u1", some "010-1111-1111", ""⟩ : Rec)], r.memo = "" :=
  ⟨(C8_idempotent [⟨"u1", some "010-1111-1111", ""⟩] (by decide)).1
      "u1" (some "010-1111-1111"),
   (C8_idempotent [⟨"u1", some "010-1111-1111", ""⟩] (by decide)).2⟩

/-- Claim C10: `process_best_list` never leaves the phone column null — a
pandas-null cell becomes the literal string `"nan"`, a missing phone column
becomes `""` — so an unmatched candidate row from it always survives the
null-based drop of `match_lists` with its string phone. -/
theorem C10_best_phone_never_null (t : List (List PyCell)) :
    (∀ r ∈ Processor.process_best_list t, ∃ s, r.phone = some s)
    ∧ Processor.process_best_list [[PyCell.pstr "u1", PyCell.pnan]] =
        [⟨"u1", some "nan", ""⟩]
    ∧ Processor.process_best_list [[PyCell.pstr "u1"]] =
        [⟨"u1", some "", ""⟩]
    ∧ ∀ (S : List Rec) (r : Rec), r ∈ Processor.process_best_list t →
        (∀ s ∈ S, s.user_id ≠ r.user_id) →
        ∃ p, r.phone = some p ∧
          (r.user_id, some p) ∈ Processor.pairsOf
            (Processor.match_lists S (Processor.process_best_list t)) := by
  have hphone : ∀ r ∈ Processor.process_best_list t,
      ∃ s, r.phone = some s := by
    intro r hr
    unfold Processor.process_best_list at hr
    split at hr
    · split at hr
      · obtain ⟨p, -, he⟩ := List.mem_map.mp (dedupRows_subset _ _ _ hr)
        exact ⟨_, by rw [← he]⟩
      · obtain ⟨p, -, he⟩ := List.mem_map.mp (dedupRows_subset _ _ _ hr)
        exact ⟨_, by rw [← he]⟩
    · obtain ⟨row, -, he⟩ := List.mem_map.mp (dedupRows_subset _ _ _ hr)
      exact ⟨String.mk (pyStrip (cellToStr (Processor.getCell row 1)).data),
        by rw [← he]; rfl⟩
  refine ⟨hphone, by decide, by decide, ?_⟩
  intro S r hr hnm
  obtain ⟨p, hp⟩ := hphone r hr
  refine ⟨p, hp, ?_⟩
  have hco : (r, none) ∈
      Processor.joinRows S (Processor.process_best_list t) :=
    (mem_joinRows _ _).mpr ⟨r, hr, mem_joinOne_unmatched hnm⟩
  have hres : Processor.resolvePhone (r, none) = some p := by
    rw [resolvePhone_none]; exact hp
  exact mem_pairs_match_intro hco hres

/-- Claim C10 witness: a candidate parsed from a null phone cell carries the
string `"nan"` and survives reconciliation against an empty source. -/
theorem C10_witness :
    ∃ p, (⟨"u2", some "nan", ""⟩ : Rec).phone = some p ∧
      ((⟨"u2", some "nan", ""⟩ : Rec).user_id, some p) ∈
        Processor.pairsOf (Processor.match_lists []
          (Processor.process_best_list [[PyCell.pstr "u2", PyCell.pnan]])) :=
  (C10_best_phone_never_null [[PyCell.pstr "u2", PyCell.pnan]]).2.2.2
    [] ⟨"u2", some "nan", ""⟩ (by decide) (by decide)
